import Mathlib

/-!
Verification of the core computations of the `jupyter_data_languages`
notebooks against their natural-language specification.

The repository contains two pieces of original logic:

* `cov_to_ellipse` (errorbar notebook): turns a 2x2 symmetric covariance
  matrix into matplotlib ellipse parameters via a singular value
  decomposition (`scipy.linalg.svd`), `np.arctan2`/`np.degrees` for the
  orientation and `2 * np.sqrt(eigval)` for the full axis lengths.
* `logScaleImage` and `colorize` (FITS notebook): a percentile-based
  normalization composed with astropy's `LogStretch`, and a screen-blend
  compositor for colored single-band layers.

Python floats are modelled by `ℝ` (exact real arithmetic; claims about
floating-point tolerance become exact equalities), finite pixel data by
`ℚ` where the computation is rational, and a possibly non-finite pixel
by `Option ℚ` (`none` models NaN/Inf).  Code with no `raise` statement is
embedded as a total function; fallible numpy operations (the broadcast
check, the `assert` in `colorize`, indexing an empty list) return
`Option`/`none` on failure.
-/

open Real

/- ## Covariance-to-ellipse transform (errorbar notebook)

Source:
  def cov_to_ellipse(cov, pos, **kwargs):
      eigvec,eigval,V = sl.svd(cov,full_matrices=False)
      theta = np.degrees(np.arctan2(eigvec[1, 0], eigvec[0, 0]))
      width, height = 2 * np.sqrt(eigval)
      return Ellipse(xy=pos, width=width, height=height, angle=theta, **kwargs)

The notebook only ever builds symmetric matrices
[[sx^2, p*sx*sy], [p*sx*sy, sy^2]], so the input is modelled as a
symmetric 2x2 matrix with entries `a b / b c`.  For a real symmetric
matrix the singular values returned by `sl.svd` are the absolute values
of the eigenvalues in non-increasing order, and the singular vectors are
the corresponding eigenvectors; the closed 2x2 eigendecomposition is
embedded below. -/

/-- A symmetric 2x2 real matrix `[[a, b], [b, c]]`. -/
structure Cov2 where
  a : ℝ
  b : ℝ
  c : ℝ

/-- Half the trace of the matrix; the mean of the two eigenvalues. -/
noncomputable def eigMean (m : Cov2) : ℝ := (m.a + m.c) / 2

/-- Half the eigenvalue gap: `sqrt(((a-c)/2)^2 + b^2)`. -/
noncomputable def eigGap (m : Cov2) : ℝ := Real.sqrt (((m.a - m.c) / 2) ^ 2 + m.b ^ 2)

/-- The larger eigenvalue of the symmetric matrix. -/
noncomputable def eig1 (m : Cov2) : ℝ := eigMean m + eigGap m

/-- The smaller eigenvalue of the symmetric matrix. -/
noncomputable def eig2 (m : Cov2) : ℝ := eigMean m - eigGap m

/-- An (unnormalized) eigenvector for `eig1`.  For a diagonal matrix it is
the coordinate axis of the larger diagonal entry, matching the
orientation LAPACK reports for diagonal input. -/
noncomputable def eigvec1 (m : Cov2) : ℝ × ℝ :=
  if m.b = 0 then (if m.c ≤ m.a then (1, 0) else (0, 1))
  else (m.b, eig1 m - m.a)

/-- An (unnormalized) eigenvector for `eig2`. -/
noncomputable def eigvec2 (m : Cov2) : ℝ × ℝ :=
  if m.b = 0 then (if m.c ≤ m.a then (0, 1) else (1, 0))
  else (m.b, eig2 m - m.a)

/-- First (largest) singular value of the symmetric matrix: the larger
eigenvalue magnitude.  This is `eigval[0]` of `sl.svd`. -/
noncomputable def sval1 (m : Cov2) : ℝ := max |eig1 m| |eig2 m|

/-- Second singular value: the smaller eigenvalue magnitude,
`eigval[1]` of `sl.svd`. -/
noncomputable def sval2 (m : Cov2) : ℝ := min |eig1 m| |eig2 m|

/-- The first column of `U` in the SVD: the eigenvector belonging to the
eigenvalue of largest magnitude. -/
noncomputable def svec1 (m : Cov2) : ℝ × ℝ :=
  if |eig2 m| ≤ |eig1 m| then eigvec1 m else eigvec2 m

/-- Four-quadrant arctangent, the semantics of `np.arctan2(y, x)`. -/
noncomputable def atan2 (y x : ℝ) : ℝ :=
  if 0 < x then Real.arctan (y / x)
  else if x < 0 then
    (if 0 ≤ y then Real.arctan (y / x) + Real.pi else Real.arctan (y / x) - Real.pi)
  else if 0 < y then Real.pi / 2
  else if y < 0 then -(Real.pi / 2)
  else 0

/-- Radians to degrees, the semantics of `np.degrees`. -/
noncomputable def degrees (x : ℝ) : ℝ := x * 180 / Real.pi

/-- The matplotlib `Ellipse` parameters produced by the notebook:
center, full width and height, and rotation angle in degrees. -/
structure EllipseParams where
  xy : ℝ × ℝ
  width : ℝ
  height : ℝ
  angle : ℝ

/-- Embedding of `cov_to_ellipse` for a symmetric 2x2 input: angle of the
first singular vector in degrees, axis lengths `2 * sqrt` of the singular
values.  The source has no error branch, so the embedding is total. -/
noncomputable def cov_to_ellipse (cov : Cov2) (pos : ℝ × ℝ) : EllipseParams :=
  { xy := pos
    width := 2 * Real.sqrt (sval1 cov)
    height := 2 * Real.sqrt (sval2 cov)
    angle := degrees (atan2 (svec1 cov).2 (svec1 cov).1) }

/-- Positive semi-definiteness of the symmetric 2x2 matrix. -/
def PSD (m : Cov2) : Prop := 0 ≤ m.a ∧ 0 ≤ m.c ∧ m.b ^ 2 ≤ m.a * m.c

/-- Reconstruction of a covariance matrix from ellipse parameters,
following the spec's round-trip law: rotate
`diag((width/2)^2, (height/2)^2)` by the (degree) angle. -/
noncomputable def reconstructCov (e : EllipseParams) : Cov2 :=
  { a := Real.cos (e.angle * Real.pi / 180) ^ 2 * (e.width / 2) ^ 2 +
      Real.sin (e.angle * Real.pi / 180) ^ 2 * (e.height / 2) ^ 2
    b := Real.cos (e.angle * Real.pi / 180) * Real.sin (e.angle * Real.pi / 180) *
      ((e.width / 2) ^ 2 - (e.height / 2) ^ 2)
    c := Real.sin (e.angle * Real.pi / 180) ^ 2 * (e.width / 2) ^ 2 +
      Real.cos (e.angle * Real.pi / 180) ^ 2 * (e.height / 2) ^ 2 }

/- ## Normalization and stretch (FITS notebook)

Source:
  def logScaleImage(image, return_full=False):
      reagon = interval.AsymmetricPercentileInterval(10., 99.95)
      vmin, vmax = reagon.get_limits(image)
      a = vmax/vmin - 1
      scale = stretch.LogStretch(a=a)
      image_scaled = (scale + reagon)(image)
      if return_full:
          return image_scaled, vmin, vmax, scale
      return image_scaled

The percentile interval and the log stretch are astropy collaborators;
they are modelled from the spec's description (section 4.1): the
percentile bounds are computed over the finite values with numpy's
linear interpolation, the interval linearly rescales and clips a value
to [0, 1], and the stretch applies `log(1 + a*u) / log(1 + a)`. -/

/-- Insert into a sorted rational list, keeping it sorted. -/
def insertSorted (x : ℚ) : List ℚ → List ℚ
  | [] => [x]
  | y :: ys => if x ≤ y then x :: y :: ys else y :: insertSorted x ys

/-- Sort a list of rationals (insertion sort). -/
def sortQ (xs : List ℚ) : List ℚ := xs.foldr insertSorted []

/-- Modelled from the spec: the `q`-th percentile of a data set with
numpy's linear interpolation between order statistics (the behaviour of
`np.percentile` used by `AsymmetricPercentileInterval`). -/
def percentile (xs : List ℚ) (q : ℚ) : ℚ :=
  let s := sortQ xs
  if s.length = 0 then 0
  else
    let h : ℚ := q / 100 * ((s.length : ℚ) - 1)
    let i : ℕ := (⌊h⌋).toNat
    let lo := s.getD i 0
    let hi := s.getD (min (i + 1) (s.length - 1)) 0
    lo + (h - (⌊h⌋ : ℚ)) * (hi - lo)

/-- The finite pixel values of an image whose pixels are `Option ℚ`
(`none` models a non-finite entry, excluded from the percentile
computation as the spec recommends). -/
def finiteVals (image : List (List (Option ℚ))) : List ℚ :=
  image.foldr (fun row acc => row.filterMap id ++ acc) []

/-- Embedding of `reagon.get_limits(image)` with the notebook's
hard-coded percentiles 10 and 99.95. -/
def getLimits (image : List (List (Option ℚ))) : ℚ × ℚ :=
  (percentile (finiteVals image) 10, percentile (finiteVals image) (1999 / 20))

/-- Clip a value to [0, 1], the semantics of `np.clip(x, 0, 1)`. -/
noncomputable def clip01 (x : ℝ) : ℝ := max 0 (min 1 x)

/-- The linear rescale step of the interval: `clip((v - vmin) / (vmax - vmin), 0, 1)`. -/
noncomputable def rescale01 (vmin vmax v : ℝ) : ℝ := clip01 ((v - vmin) / (vmax - vmin))

/-- The stretch coefficient derived in `logScaleImage`: `a = vmax/vmin - 1`. -/
noncomputable def stretchCoeff (vmin vmax : ℝ) : ℝ := vmax / vmin - 1

/-- Modelled from the spec: astropy's `LogStretch` curve
`u ↦ log(a*u + 1) / log(a + 1)`. -/
noncomputable def logStretch (a u : ℝ) : ℝ := Real.log (a * u + 1) / Real.log (a + 1)

/-- The composed transform `(scale + reagon)` applied to one pixel value. -/
noncomputable def stretchPixel (vmin vmax v : ℝ) : ℝ :=
  logStretch (stretchCoeff vmin vmax) (rescale01 vmin vmax v)

/-- The stretch coefficient at the rational level, as returned together
with the limits when `return_full=True`. -/
def stretchCoeffQ (vmin vmax : ℚ) : ℚ := vmax / vmin - 1

/-- Embedding of `logScaleImage(image, return_full=True)`: the scaled
image together with `vmin`, `vmax` and the stretch coefficient `a`.
A non-finite pixel (NaN in, NaN out) stays `none`. -/
noncomputable def logScaleImageFull (image : List (List (Option ℚ))) :
    List (List (Option ℝ)) × ℚ × ℚ × ℚ :=
  (image.map (fun row => row.map (fun p => p.map (fun v =>
      stretchPixel ((getLimits image).1 : ℝ) ((getLimits image).2 : ℝ) (v : ℝ)))),
   (getLimits image).1, (getLimits image).2,
   stretchCoeffQ (getLimits image).1 (getLimits image).2)

/-- Embedding of `logScaleImage(image)` (default `return_full=False`). -/
noncomputable def logScaleImage (image : List (List (Option ℚ))) : List (List (Option ℝ)) :=
  (logScaleImageFull image).1

/- ## Color compositing (FITS notebook)

Source:
  def colorize(*args, colors=[]):
      assert len(args) == len(colors), '...'
      images = []
      for img, color in zip(args, colors):
          rgb = np.array(cc.to_rgb(color)).reshape(3, 1, 1)
          img[~np.isfinite(img)] = 0.0
          images.append(rgb * img)
      base = images[0]
      for layer in images[1:]:
          base = 1 - ((1 - base) * (1 - layer))
      return np.rollaxis(base, 0, 3)

Pixels are rationals; a non-finite entry is `none` and is overwritten
with 0 in place before blending.  The elementwise numpy products and the
screen blend follow numpy's 2-D broadcasting rules: a dimension matches
if the sizes are equal or one of them is 1; otherwise numpy raises. -/

/-- An RGB color triple, each channel in [0, 1]. -/
structure RGB where
  r : ℚ
  g : ℚ
  b : ℚ
deriving DecidableEq

/-- A composited RGB image: one 2-D rational array per channel. -/
structure RGBImage where
  r : List (List ℚ)
  g : List (List ℚ)
  b : List (List ℚ)
deriving DecidableEq

/-- Replace the non-finite entries of an image by 0, the functional
content of `img[~np.isfinite(img)] = 0.0`. -/
def sanitizeQ (img : List (List (Option ℚ))) : List (List ℚ) :=
  img.map (List.map fun p => p.getD 0)

/-- Multiply every pixel by a scalar (one channel of `rgb * img`). -/
def scaleImg (k : ℚ) (img : List (List ℚ)) : List (List ℚ) :=
  img.map (List.map fun v => k * v)

/-- The per-element screen blend `1 - (1 - b)*(1 - l)`. -/
def screen1 (b l : ℚ) : ℚ := 1 - (1 - b) * (1 - l)

/-- Numpy broadcasting of one dimension: equal sizes match, a size of 1
is stretched, anything else is an error. -/
def bdim (m n : ℕ) : Option ℕ :=
  if m = n then some m else if m = 1 then some n else if n = 1 then some m else none

/-- Broadcast-aware element access into a 2-D array: an axis of size 1
always yields its only row/entry. -/
def getB2 (A : List (List ℚ)) (i j : ℕ) : ℚ :=
  let row := if A.length = 1 then A.getD 0 [] else A.getD i []
  if row.length = 1 then row.getD 0 0 else row.getD j 0

/-- An elementwise binary numpy operation on two 2-D arrays with
broadcasting; `none` models the `ValueError` numpy raises when the
shapes are not broadcastable. -/
def bop2 (f : ℚ → ℚ → ℚ) (A B : List (List ℚ)) : Option (List (List ℚ)) :=
  match bdim A.length B.length, bdim (A.getD 0 []).length (B.getD 0 []).length with
  | some rows, some cols =>
      some ((List.range rows).map fun i =>
        (List.range cols).map fun j => f (getB2 A i j) (getB2 B i j))
  | _, _ => none

/-- One weighted layer `rgb * img` of the compositor: the sanitized image
scaled by each color channel. -/
def mkLayer (img : List (List (Option ℚ))) (k : RGB) : RGBImage :=
  { r := scaleImg k.r (sanitizeQ img)
    g := scaleImg k.g (sanitizeQ img)
    b := scaleImg k.b (sanitizeQ img) }

/-- Screen two RGB layers channelwise; fails if any channel pair is not
broadcastable. -/
def screenImg (x y : RGBImage) : Option RGBImage :=
  match bop2 screen1 x.r y.r, bop2 screen1 x.g y.g, bop2 screen1 x.b y.b with
  | some cr, some cg, some cb => some { r := cr, g := cg, b := cb }
  | _, _, _ => none

/-- Embedding of `colorize`: `none` models the `assert` failing on a
length mismatch, the `IndexError` on an empty argument list, or a numpy
broadcast failure inside the screen fold.  Layers are folded
left-to-right exactly as the source loop does. -/
def colorize (imgs : List (List (List (Option ℚ)))) (colors : List RGB) :
    Option RGBImage :=
  if imgs.length = colors.length then
    match List.zipWith mkLayer imgs colors with
    | [] => none
    | base :: rest => rest.foldl (fun acc l => acc.bind fun x => screenImg x l) (some base)
  else none

/-- The state of the input arrays after a `colorize` call: the in-place
assignment `img[~np.isfinite(img)] = 0.0` overwrites every non-finite
entry of every argument with (finite) 0.  The `assert` fires before any
mutation, so on a length mismatch the inputs are untouched. -/
def colorizeInputsAfter (imgs : List (List (List (Option ℚ)))) (colors : List RGB) :
    List (List (List (Option ℚ))) :=
  if imgs.length = colors.length then
    imgs.map (List.map (List.map fun p => some (p.getD 0)))
  else imgs

/-- All pixels of all images are finite. -/
def allFinite (imgs : List (List (List (Option ℚ)))) : Prop :=
  ∀ img ∈ imgs, ∀ row ∈ img, ∀ p ∈ row, p ≠ none

/-- A 2-D array has `rows` rows, each of length `cols`. -/
def rect2 (A : List (List α)) (rows cols : ℕ) : Prop :=
  A.length = rows ∧ ∀ row ∈ A, row.length = cols

/-- Plain (non-broadcast) access into a 2-D rational array. -/
def pixQ (A : List (List ℚ)) (i j : ℕ) : ℚ := (A.getD i []).getD j 0

/-- The finite value of a possibly non-finite pixel, 0 for `none`. -/
def pixVal (A : List (List (Option ℚ))) (i j : ℕ) : ℚ :=
  ((A.getD i []).getD j none).getD 0

/- ## Lemmas about the rescale and stretch pipeline -/

lemma clip01_nonneg (x : ℝ) : 0 ≤ clip01 x := le_max_left 0 _

lemma clip01_le_one (x : ℝ) : clip01 x ≤ 1 :=
  max_le (by norm_num) (min_le_left 1 x)

lemma clip01_mono {x y : ℝ} (h : x ≤ y) : clip01 x ≤ clip01 y :=
  max_le_max le_rfl (min_le_min le_rfl h)

lemma clip01_of_zero : clip01 0 = 0 := by norm_num [clip01]

lemma clip01_of_one : clip01 1 = 1 := by norm_num [clip01]

lemma rescale01_at_vmin (vmin vmax : ℝ) : rescale01 vmin vmax vmin = 0 := by
  rw [rescale01, sub_self, zero_div, clip01_of_zero]

lemma rescale01_at_vmax {vmin vmax : ℝ} (h : vmin < vmax) :
    rescale01 vmin vmax vmax = 1 := by
  rw [rescale01, div_self (ne_of_gt (sub_pos.mpr h)), clip01_of_one]

lemma rescale01_nonneg (vmin vmax v : ℝ) : 0 ≤ rescale01 vmin vmax v :=
  clip01_nonneg _

lemma rescale01_le_one (vmin vmax v : ℝ) : rescale01 vmin vmax v ≤ 1 :=
  clip01_le_one _

lemma rescale01_mono {vmin vmax : ℝ} (h : vmin < vmax) {v1 v2 : ℝ} (hv : v1 ≤ v2) :
    rescale01 vmin vmax v1 ≤ rescale01 vmin vmax v2 := by
  refine clip01_mono ?_
  have hd : 0 < vmax - vmin := sub_pos.mpr h
  exact (div_le_div_right hd).mpr (by linarith)

lemma logStretch_zero (a : ℝ) : logStretch a 0 = 0 := by
  rw [logStretch, mul_zero, zero_add, Real.log_one, zero_div]

lemma logStretch_one {a : ℝ} (h1 : -1 < a) (h0 : a ≠ 0) : logStretch a 1 = 1 := by
  rw [logStretch, mul_one]
  refine div_self fun hz => ?_
  rcases Real.log_eq_zero.mp hz with h | h | h <;> [linarith; exact h0 (by linarith); linarith]

lemma logStretch_mono {a : ℝ} (h1 : -1 < a) {u v : ℝ} (hu : 0 ≤ u) (huv : u ≤ v)
    (hv : v ≤ 1) : logStretch a u ≤ logStretch a v := by
  rcases lt_trichotomy a 0 with ha | ha | ha
  · have hden : Real.log (a + 1) < 0 := Real.log_neg (by linarith) (by linarith)
    have hpv : 0 < a * v + 1 := by nlinarith
    have hpu : 0 < a * u + 1 := by nlinarith
    have hnum : Real.log (a * v + 1) ≤ Real.log (a * u + 1) :=
      (Real.log_le_log_iff hpv hpu).mpr (by nlinarith)
    exact (div_le_div_right_of_neg hden).mpr hnum
  · subst ha
    simp [logStretch, zero_mul, zero_add, Real.log_one]
  · have hden : 0 < Real.log (a + 1) := Real.log_pos (by linarith)
    have hpu : 0 < a * u + 1 := by nlinarith
    have hnum : Real.log (a * u + 1) ≤ Real.log (a * v + 1) :=
      (Real.log_le_log_iff hpu (by nlinarith)).mpr (by nlinarith)
    exact (div_le_div_right hden).mpr hnum

/-- For bounds derived with the same (nonzero) sign, the stretch
coefficient `a = vmax/vmin - 1` lies in the well-defined regime
`a > -1`, `a ≠ 0`. -/
lemma stretchCoeff_valid {vmin vmax : ℝ} (h : vmin < vmax) (hs : 0 < vmin ∨ vmax < 0) :
    -1 < stretchCoeff vmin vmax ∧ stretchCoeff vmin vmax ≠ 0 := by
  rcases hs with hvmin | hvmax
  · have h1 : 1 < vmax / vmin := (one_lt_div hvmin).mpr h
    constructor
    · rw [stretchCoeff]; linarith
    · rw [stretchCoeff]; intro hc; nlinarith
  · have hvmin : vmin < 0 := lt_trans h hvmax
    have hpos : 0 < vmax / vmin := div_pos_iff.mpr (Or.inr ⟨hvmax, hvmin⟩)
    have hlt : vmax / vmin < 1 := by
      rw [div_lt_iff_of_neg hvmin, one_mul]; exact h
    constructor
    · rw [stretchCoeff]; linarith
    · rw [stretchCoeff]; intro hc; nlinarith

/-- The concrete mixed-sign instance `vmin = -1 < 0 < vmax = 2`: the raw
pixel `1/5` is strictly inside the interval yet the stretched value is
negative (in floating point it is NaN: the stretch takes the log of the
negative number `a*u + 1 = -1/5`). -/
lemma stretchPixel_mixed_sign_neg : stretchPixel (-1) 2 (1 / 5) < 0 := by
  have hcoeff : stretchCoeff (-1) 2 = -3 := by norm_num [stretchCoeff]
  have hres : rescale01 (-1) 2 (1 / 5) = 2 / 5 := by
    rw [rescale01, show ((1 : ℝ) / 5 - -1) / (2 - -1) = 2 / 5 by norm_num]
    norm_num [clip01]
  rw [stretchPixel, hcoeff, hres, logStretch,
    show ((-3 : ℝ) * (2 / 5) + 1) = -(1 / 5) by norm_num,
    show ((-3 : ℝ) + 1) = -2 by norm_num, Real.log_neg_eq_log, Real.log_neg_eq_log]
  exact div_neg_of_neg_of_pos (Real.log_neg (by norm_num) (by norm_num))
    (Real.log_pos (by norm_num))

lemma percentile_singleton (x q : ℚ) : percentile [x] q = x := by
  have hs : sortQ [x] = [x] := rfl
  rw [percentile]
  rw [hs]
  norm_num

lemma getLimits_singleton (x : ℚ) : getLimits [[some x]] = (x, x) := by
  have hf : finiteVals [[some x]] = [x] := rfl
  rw [getLimits, hf, percentile_singleton, percentile_singleton]

/-- A degenerate interval `vmin = vmax` sends every pixel to 0 in the
real-number model: the rescale divides by zero (NaN in floating point)
and the clip of the junk value 0 is 0, after which the stretch of 0 is 0. -/
lemma stretchPixel_degenerate (c v : ℝ) : stretchPixel c c v = 0 := by
  rw [stretchPixel, rescale01, sub_self, div_zero, clip01_of_zero, logStretch_zero]

/-- Claim C2, counterexample.  On the constant 1x1 image `[[5]]` the
derived limits are the degenerate pair `vmin = vmax = 5`, and
`logScaleImage` raises no error: it returns the scaled image together
with the coefficient `a = 0` (whose stretch denominator `log(1+a)` is 0,
so the floating-point reference silently produces NaN pixels; in the
real-number model the junk value is 0). -/
theorem C2_constant_image_returns :
    getLimits [[some 5]] = (5, 5) ∧
    logScaleImageFull [[some 5]] = ([[some 0]], 5, 5, 0) ∧
    Real.log ((stretchCoeffQ 5 5 : ℝ) + 1) = 0 := by
  have hg : getLimits [[some 5]] = (5, 5) := getLimits_singleton 5
  refine ⟨hg, ?_, ?_⟩
  · rw [logScaleImageFull, hg]
    norm_num [stretchPixel_degenerate, stretchCoeffQ]
  · norm_num [stretchCoeffQ, Real.log_one]

/-- Claim C2 (amended).  The code performs no degenerate-interval check
and raises no DomainError: whenever the derived limits satisfy
`vmin = vmax` (with `vmin ≠ 0`), `logScaleImage` still returns, the
stretch coefficient is `a = 0`, its stretch denominator `log(1 + a)` is
zero (the division that yields NaN in floating point), and every finite
pixel is mapped to the junk value 0. -/
theorem C2_amended_degenerate_no_domain_error (image : List (List (Option ℚ)))
    (h1 : (getLimits image).1 = (getLimits image).2)
    (h2 : (getLimits image).1 ≠ 0) :
    (logScaleImageFull image).2.2.2 = 0 ∧
    Real.log (((logScaleImageFull image).2.2.2 : ℝ) + 1) = 0 ∧
    logScaleImage image =
      image.map (fun row => row.map (fun p => p.map (fun _ => (0 : ℝ)))) := by
  have ha : (logScaleImageFull image).2.2.2 = 0 := by
    rw [logScaleImageFull]
    dsimp only
    rw [stretchCoeffQ, ← h1, div_self h2, sub_self]
  refine ⟨ha, ?_, ?_⟩
  · rw [ha]; norm_num
  · rw [logScaleImage, logScaleImageFull]
    dsimp only
    rw [← h1]
    simp only [stretchPixel_degenerate, List.map_inj_left, Option.map_eq_map]
    intro row hrow p hp
    cases p <;> rfl

/-- Claim C2 (amended), witness at the constant 1x1 image `[[7]]`. -/
theorem C2_amended_witness :
    (getLimits [[some 7]]).1 = (getLimits [[some 7]]).2 ∧
    (getLimits [[some 7]]).1 ≠ 0 ∧
    (logScaleImageFull [[some 7]]).2.2.2 = 0 ∧
    logScaleImage [[some 7]] = [[some 0]] := by
  have hg : getLimits [[some 7]] = (7, 7) := getLimits_singleton 7
  have h1 : (getLimits [[some 7]]).1 = (getLimits [[some 7]]).2 := by rw [hg]
  have h2 : (getLimits [[some 7]]).1 ≠ 0 := by rw [hg]; norm_num
  obtain ⟨ha, _, himg⟩ := C2_amended_degenerate_no_domain_error [[some 7]] h1 h2
  exact ⟨h1, h2, ha, by rw [himg]; rfl⟩

/-- Claim C4, counterexample.  Mixed-sign derived bounds do arise (the
image `[[-1, 2]]` yields `vmin < 0 < vmax`), and for the mixed-sign
bounds `vmin = -1 < 0 < 2 = vmax` the composed transform leaves `[0, 1]`: the
raw pixel `1/5` (strictly between the bounds) is stretched to a negative
value, and at `vmin = -1, vmax = 1` the pixel equal to `vmax` is not
mapped to 1 (the reference produces NaN there: `a = vmax/vmin - 1 < -1`
makes `log(1 + a)` the log of a negative number). -/
theorem C4_mixed_sign_counterexample :
    (getLimits [[some (-1), some 2]]).1 < 0 ∧ 0 < (getLimits [[some (-1), some 2]]).2 ∧
    stretchPixel (-1) 2 (1 / 5) < 0 ∧ stretchPixel (-1) 1 1 ≠ 1 := by
  have hf : finiteVals [[some (-1), some 2]] = [-1, 2] := rfl
  refine ⟨?_, ?_, stretchPixel_mixed_sign_neg, ?_⟩
  · rw [getLimits, hf]
    norm_num [percentile, sortQ, insertSorted]
  · rw [getLimits, hf]
    norm_num [percentile, sortQ, insertSorted]
  have hcoeff : stretchCoeff (-1) 1 = -2 := by norm_num [stretchCoeff]
  have hres : rescale01 (-1) 1 1 = 1 := rescale01_at_vmax (by norm_num)
  rw [stretchPixel, hcoeff, hres, logStretch,
    show ((-2 : ℝ) * 1 + 1) = -1 by norm_num, show ((-2 : ℝ) + 1) = -1 by norm_num,
    Real.log_neg_eq_log, Real.log_one, zero_div]
  norm_num

/-- Claim C4 (amended).  When the derived bounds share a (nonzero) sign
— in particular whenever `0 < vmin < vmax` — every pixel value is mapped
into `[0, 1]`, a pixel equal to `vmin` maps to exactly 0 and a pixel
equal to `vmax` maps to exactly 1. -/
theorem C4_amended_range_and_endpoints (vmin vmax v : ℝ) (h : vmin < vmax)
    (hs : 0 < vmin ∨ vmax < 0) :
    0 ≤ stretchPixel vmin vmax v ∧ stretchPixel vmin vmax v ≤ 1 ∧
    stretchPixel vmin vmax vmin = 0 ∧ stretchPixel vmin vmax vmax = 1 := by
  obtain ⟨h1, h0⟩ := stretchCoeff_valid h hs
  refine ⟨?_, ?_, ?_, ?_⟩
  · have hm := logStretch_mono h1 (le_refl (0 : ℝ)) (rescale01_nonneg vmin vmax v)
      (rescale01_le_one vmin vmax v)
    rw [logStretch_zero] at hm
    exact hm
  · have hm := logStretch_mono h1 (rescale01_nonneg vmin vmax v)
      (rescale01_le_one vmin vmax v) (le_refl (1 : ℝ))
    rw [logStretch_one h1 h0] at hm
    exact hm
  · rw [stretchPixel, rescale01_at_vmin, logStretch_zero]
  · rw [stretchPixel, rescale01_at_vmax h, logStretch_one h1 h0]

/-- Claim C4 (amended), witness at `vmin = 1, vmax = 3, v = 2`. -/
theorem C4_amended_witness :
    (1 : ℝ) < 3 ∧ 0 ≤ stretchPixel 1 3 2 ∧ stretchPixel 1 3 2 ≤ 1 ∧
    stretchPixel 1 3 1 = 0 ∧ stretchPixel 1 3 3 = 1 := by
  have h := C4_amended_range_and_endpoints 1 3 2 (by norm_num) (Or.inl (by norm_num))
  exact ⟨by norm_num, h.1, h.2.1, h.2.2.1, h.2.2.2⟩

/-- Claim C5, counterexample.  With the mixed-sign bounds
`vmin = -1 < 0 < 2 = vmax`, the raw pixels `-1 ≤ 1/5` are mapped out of
order: the pixel at `vmin` is stretched to 0 while the larger pixel
`1/5` is stretched to a negative value (NaN in the floating-point
reference), so the transform is not monotonically non-decreasing. -/
theorem C5_mixed_sign_not_monotone :
    (-1 : ℝ) ≤ 1 / 5 ∧
    ¬ (stretchPixel (-1) 2 (-1) ≤ stretchPixel (-1) 2 (1 / 5)) := by
  have hzero : stretchPixel (-1) 2 (-1) = 0 := by
    rw [stretchPixel, rescale01_at_vmin, logStretch_zero]
  exact ⟨by norm_num, not_le.mpr (by rw [hzero]; exact stretchPixel_mixed_sign_neg)⟩

/-- Claim C5 (amended).  When the derived bounds share a (nonzero) sign,
the composed rescale-then-log-stretch map is monotonically
non-decreasing in the raw pixel value. -/
theorem C5_amended_monotone (vmin vmax v1 v2 : ℝ) (h : vmin < vmax)
    (hs : 0 < vmin ∨ vmax < 0) (hv : v1 ≤ v2) :
    stretchPixel vmin vmax v1 ≤ stretchPixel vmin vmax v2 := by
  obtain ⟨h1, _⟩ := stretchCoeff_valid h hs
  exact logStretch_mono h1 (rescale01_nonneg vmin vmax v1) (rescale01_mono h hv)
    (rescale01_le_one vmin vmax v2)

/-- Claim C5 (amended), witness at `vmin = 1, vmax = 3, v1 = 0, v2 = 2`. -/
theorem C5_amended_witness :
    (1 : ℝ) < 3 ∧ (0 : ℝ) ≤ 2 ∧ stretchPixel 1 3 0 ≤ stretchPixel 1 3 2 :=
  ⟨by norm_num, by norm_num,
    C5_amended_monotone 1 3 0 2 (by norm_num) (Or.inl (by norm_num)) (by norm_num)⟩

/- ## Lemmas about the compositor -/

lemma getD_mem_of_lt {α : Type} {A : List α} {i : ℕ} (h : i < A.length) (d : α) :
    A.getD i d ∈ A := by
  rw [List.getD_eq_getElem _ _ h]
  exact List.getElem_mem h

lemma rect2_mapmap {α β : Type} (f : α → β) {A : List (List α)} {r c : ℕ}
    (h : rect2 A r c) : rect2 (A.map (List.map f)) r c := by
  refine ⟨by rw [List.length_map]; exact h.1, ?_⟩
  intro row hrow
  obtain ⟨row0, h0, rfl⟩ := List.mem_map.mp hrow
  rw [List.length_map]
  exact h.2 row0 h0

lemma bdim_self (n : ℕ) : bdim n n = some n := by simp [bdim]

lemma getB2_rect {A : List (List ℚ)} {r c : ℕ} (hA : rect2 A r c) {i j : ℕ}
    (hi : i < r) (hj : j < c) : getB2 A i j = pixQ A i j := by
  obtain ⟨hlen, hrows⟩ := hA
  have hir : i < A.length := hlen ▸ hi
  have hrowmem : A.getD i [] ∈ A := getD_mem_of_lt hir []
  have hrowlen : (A.getD i []).length = c := hrows _ hrowmem
  simp only [getB2, pixQ]
  by_cases h1 : A.length = 1
  · have hi0 : i = 0 := by omega
    subst hi0
    rw [if_pos h1]
    by_cases h2 : (A.getD 0 []).length = 1
    · have hj0 : j = 0 := by omega
      subst hj0
      rw [if_pos h2]
    · rw [if_neg h2]
  · rw [if_neg h1]
    by_cases h2 : (A.getD i []).length = 1
    · have hj0 : j = 0 := by omega
      subst hj0
      rw [if_pos h2]
    · rw [if_neg h2]

lemma bop2_rect (f : ℚ → ℚ → ℚ) {A B : List (List ℚ)} {r c : ℕ}
    (hA : rect2 A r c) (hB : rect2 B r c) :
    bop2 f A B = some ((List.range r).map fun i =>
      (List.range c).map fun j => f (pixQ A i j) (pixQ B i j)) := by
  rw [bop2]
  rcases Nat.eq_zero_or_pos r with hr | hr
  · subst hr
    have hAnil : A = [] := List.length_eq_zero.mp hA.1
    have hBnil : B = [] := List.length_eq_zero.mp hB.1
    subst hAnil hBnil
    simp [bdim]
  · have hAr : A.getD 0 [] ∈ A := getD_mem_of_lt (hA.1 ▸ hr) []
    have hBr : B.getD 0 [] ∈ B := getD_mem_of_lt (hB.1 ▸ hr) []
    rw [hA.1, hB.1, hA.2 _ hAr, hB.2 _ hBr, bdim_self, bdim_self]
    refine congrArg some (List.map_congr_left ?_)
    intro i hi
    refine List.map_congr_left ?_
    intro j hj
    rw [getB2_rect hA (List.mem_range.mp hi) (List.mem_range.mp hj),
      getB2_rect hB (List.mem_range.mp hi) (List.mem_range.mp hj)]

lemma getD_map_nil {α β : Type} (g : List α → List β) (hg : g [] = [])
    (A : List (List α)) (i : ℕ) : (A.map g).getD i [] = g (A.getD i []) := by
  rcases lt_or_ge i A.length with hi | hi
  · rw [List.getD_eq_getElem _ _ (by simpa using hi), List.getD_eq_getElem _ _ hi,
      List.getElem_map]
  · rw [List.getD_eq_default _ _ (by simpa using hi), List.getD_eq_default _ _ hi, hg]

lemma getD_map_zero {f : ℚ → ℚ} (hf : f 0 = 0) (l : List ℚ) (j : ℕ) :
    (l.map f).getD j 0 = f (l.getD j 0) := by
  rcases lt_or_ge j l.length with hj | hj
  · rw [List.getD_eq_getElem _ _ (by simpa using hj), List.getD_eq_getElem _ _ hj,
      List.getElem_map]
  · rw [List.getD_eq_default _ _ (by simpa using hj), List.getD_eq_default _ _ hj, hf]

lemma pixQ_scaleImg (k : ℚ) (A : List (List ℚ)) (i j : ℕ) :
    pixQ (scaleImg k A) i j = k * pixQ A i j := by
  rw [pixQ, pixQ, scaleImg, getD_map_nil (List.map fun v => k * v) rfl,
    getD_map_zero (mul_zero k)]

lemma pixQ_sanitizeQ (A : List (List (Option ℚ))) (i j : ℕ) :
    pixQ (sanitizeQ A) i j = pixVal A i j := by
  rw [pixQ, pixVal, sanitizeQ, getD_map_nil (List.map fun p => Option.getD p 0) rfl]
  rcases lt_or_ge j (A.getD i []).length with hj | hj
  · rw [List.getD_eq_getElem _ _ (by simpa using hj), List.getD_eq_getElem _ _ hj,
      List.getElem_map]
  · rw [List.getD_eq_default _ _ (by simpa using hj), List.getD_eq_default _ _ hj]
    rfl

lemma pixQ_layer (k : ℚ) (A : List (List (Option ℚ))) (i j : ℕ) :
    pixQ (scaleImg k (sanitizeQ A)) i j = k * pixVal A i j := by
  rw [pixQ_scaleImg, pixQ_sanitizeQ]

lemma pixQ_rangeMap {r c : ℕ} (f : ℕ → ℕ → ℚ) {i j : ℕ} (hi : i < r) (hj : j < c) :
    pixQ ((List.range r).map fun i2 => (List.range c).map fun j2 => f i2 j2) i j
      = f i j := by
  have h1 : ((List.range r).map fun i2 => (List.range c).map fun j2 => f i2 j2).getD i []
      = (List.range c).map fun j2 => f i j2 := by
    rw [List.getD_eq_getElem _ _ (by simpa using hi), List.getElem_map, List.getElem_range]
  rw [pixQ, h1, List.getD_eq_getElem _ _ (by simpa using hj), List.getElem_map,
    List.getElem_range]

/-- Claim C7.  For two same-shape input images, `colorize` succeeds and
every pixel of the result is the screen blend
`1 - (1 - base)*(1 - layer)` of the color-weighted layers, folded in
left-to-right input order (the first image is the base, the second the
layer), with non-finite input pixels replaced by 0. -/
theorem C7_screen_composite (A B : List (List (Option ℚ))) (k1 k2 : RGB) (r c : ℕ)
    (hA : rect2 A r c) (hB : rect2 B r c) (i j : ℕ) (hi : i < r) (hj : j < c) :
    ∃ R, colorize [A, B] [k1, k2] = some R ∧
      pixQ R.r i j = screen1 (k1.r * pixVal A i j) (k2.r * pixVal B i j) ∧
      pixQ R.g i j = screen1 (k1.g * pixVal A i j) (k2.g * pixVal B i j) ∧
      pixQ R.b i j = screen1 (k1.b * pixVal A i j) (k2.b * pixVal B i j) := by
  have hch : ∀ kA kB : ℚ,
      bop2 screen1 (scaleImg kA (sanitizeQ A)) (scaleImg kB (sanitizeQ B)) =
        some ((List.range r).map fun i2 => (List.range c).map fun j2 =>
          screen1 (kA * pixVal A i2 j2) (kB * pixVal B i2 j2)) := by
    intro kA kB
    have hA2 : rect2 (scaleImg kA (sanitizeQ A)) r c :=
      rect2_mapmap _ (rect2_mapmap _ hA)
    have hB2 : rect2 (scaleImg kB (sanitizeQ B)) r c :=
      rect2_mapmap _ (rect2_mapmap _ hB)
    rw [bop2_rect screen1 hA2 hB2]
    simp only [pixQ_layer]
  have hcol : colorize [A, B] [k1, k2] =
      some { r := (List.range r).map fun i2 => (List.range c).map fun j2 =>
               screen1 (k1.r * pixVal A i2 j2) (k2.r * pixVal B i2 j2)
             g := (List.range r).map fun i2 => (List.range c).map fun j2 =>
               screen1 (k1.g * pixVal A i2 j2) (k2.g * pixVal B i2 j2)
             b := (List.range r).map fun i2 => (List.range c).map fun j2 =>
               screen1 (k1.b * pixVal A i2 j2) (k2.b * pixVal B i2 j2) } := by
    rw [colorize, if_pos (by simp)]
    have hz : List.zipWith mkLayer [A, B] [k1, k2] = [mkLayer A k1, mkLayer B k2] := rfl
    rw [hz]
    simp only [List.foldl_cons, List.foldl_nil, Option.some_bind]
    rw [screenImg]
    simp only [mkLayer]
    rw [hch k1.r k2.r, hch k1.g k2.g, hch k1.b k2.b]
  refine ⟨_, hcol, ?_, ?_, ?_⟩ <;>
    exact pixQ_rangeMap _ hi hj

/-- Claim C7, witness: two all-ones 2x2 images composited with red and
green give the yellow pixel `(1, 1, 0)`, here checked at position
`(0, 0)`. -/
theorem C7_screen_composite_witness :
    ∃ R, colorize [[[some 1, some 1], [some 1, some 1]],
        [[some 1, some 1], [some 1, some 1]]] [⟨1, 0, 0⟩, ⟨0, 1, 0⟩] = some R ∧
      pixQ R.r 0 0 = 1 ∧ pixQ R.g 0 0 = 1 ∧ pixQ R.b 0 0 = 0 := by
  have hA : rect2 [[some (1 : ℚ), some 1], [some 1, some 1]] 2 2 := by
    unfold rect2
    decide
  obtain ⟨R, hcol, hr, hg, hb⟩ := C7_screen_composite
    [[some 1, some 1], [some 1, some 1]] [[some 1, some 1], [some 1, some 1]]
    ⟨1, 0, 0⟩ ⟨0, 1, 0⟩ 2 2 hA hA 0 0 (by norm_num) (by norm_num)
  refine ⟨R, hcol, ?_, ?_, ?_⟩
  · rw [hr]; norm_num [screen1, pixVal]
  · rw [hg]; norm_num [screen1, pixVal]
  · rw [hb]; norm_num [screen1, pixVal]

/-- Claim C8, counterexample.  `colorize` mutates an input containing a
non-finite entry: the in-place assignment `img[~np.isfinite(img)] = 0.0`
leaves the caller's 1x1 array holding finite 0 instead of its original
non-finite entry, so the input is changed by the call. -/
theorem C8_colorize_mutates_nonfinite :
    colorizeInputsAfter [[[none]]] [⟨1, 0, 0⟩] ≠ [[[none]]] := by decide

/-- Claim C8 (amended).  `logScaleImage` never writes to its input and
`colorize` leaves its inputs unchanged exactly when every entry is
finite; an input with a non-finite entry is overwritten in place.  Here:
all-finite inputs are returned unchanged by the mutation model. -/
theorem C8_amended_finite_inputs_unchanged (imgs : List (List (List (Option ℚ))))
    (colors : List RGB) (hf : allFinite imgs) :
    colorizeInputsAfter imgs colors = imgs := by
  rw [colorizeInputsAfter]
  split
  · refine List.map_congr_left ?_ |>.trans (List.map_id imgs)
    intro img himg
    refine List.map_congr_left ?_ |>.trans (List.map_id img)
    intro row hrow
    refine List.map_congr_left ?_ |>.trans (List.map_id row)
    intro p hp
    rcases p with _ | x
    · exact absurd rfl (hf img himg row hrow none hp)
    · rfl
  · rfl

/-- Claim C8 (amended), witness at an all-finite 1x1 input. -/
theorem C8_amended_witness :
    allFinite [[[some 3]]] ∧
    colorizeInputsAfter [[[some 3]]] [⟨1, 0, 0⟩] = [[[some 3]]] :=
  ⟨by unfold allFinite; decide,
    C8_amended_finite_inputs_unchanged [[[some 3]]] [⟨1, 0, 0⟩] (by unfold allFinite; decide)⟩

/-- Claim C9, counterexample.  Two images of different shapes (1x2 and
2x2) are accepted without any error: numpy broadcasting stretches the
single row across the second image and `colorize` silently returns a 2x2
composite instead of raising a DomainError. -/
theorem C9_broadcastable_mismatch_no_error :
    colorize [[[some 1, some 1]], [[some 1, some 1], [some 1, some 1]]]
      [⟨1, 0, 0⟩, ⟨0, 1, 0⟩]
      = some ⟨[[1, 1], [1, 1]], [[1, 1], [1, 1]], [[0, 0], [0, 0]]⟩ := by
  rw [colorize]
  simp only [List.length_cons, List.length_nil]
  rw [if_pos trivial]
  have hz : List.zipWith mkLayer
      [[[some (1 : ℚ), some 1]], [[some 1, some 1], [some 1, some 1]]]
      [(⟨1, 0, 0⟩ : RGB), ⟨0, 1, 0⟩]
      = [mkLayer [[some 1, some 1]] ⟨1, 0, 0⟩,
         mkLayer [[some 1, some 1], [some 1, some 1]] ⟨0, 1, 0⟩] := rfl
  rw [hz]
  simp only [List.foldl, Option.bind]
  rw [mkLayer, mkLayer]
  simp only [sanitizeQ, scaleImg, List.map, Option.getD, one_mul, zero_mul]
  rw [screenImg]
  simp only [bop2, bdim, List.length, List.getD]
  norm_num [getB2, screen1, List.range_succ]

/-- Claim C9 (amended).  Only shapes that are incompatible under numpy
broadcasting produce an error: if the two images have different row
counts and neither count is 1, the screen blend fails and `colorize`
reports it (a numpy ValueError in the reference, `none` in the model). -/
theorem C9_amended_nonbroadcastable_error (A B : List (List (Option ℚ))) (k1 k2 : RGB)
    (h : A.length ≠ B.length) (hA : A.length ≠ 1) (hB : B.length ≠ 1) :
    colorize [A, B] [k1, k2] = none := by
  rw [colorize, if_pos (by simp)]
  have hz : List.zipWith mkLayer [A, B] [k1, k2] = [mkLayer A k1, mkLayer B k2] := rfl
  rw [hz]
  simp only [List.foldl_cons, List.foldl_nil, Option.some_bind]
  rw [screenImg]
  have hbop : bop2 screen1 (mkLayer A k1).r (mkLayer B k2).r = none := by
    rw [bop2]
    have h1 : (mkLayer A k1).r.length = A.length := by
      simp [mkLayer, scaleImg, sanitizeQ]
    have h2 : (mkLayer B k2).r.length = B.length := by
      simp [mkLayer, scaleImg, sanitizeQ]
    rw [h1, h2, bdim, if_neg h, if_neg hA, if_neg hB]
  rw [hbop]

/-- Claim C9 (amended), witness: a 2-row and a 3-row image cannot be
broadcast together, and `colorize` reports the failure. -/
theorem C9_amended_witness :
    ([[some (1 : ℚ)], [some 1]] : List (List (Option ℚ))).length
        ≠ ([[some 1], [some 1], [some 1]] : List (List (Option ℚ))).length ∧
    colorize [[[some 1], [some 1]], [[some 1], [some 1], [some 1]]]
      [⟨1, 0, 0⟩, ⟨0, 1, 0⟩] = none :=
  ⟨by decide, C9_amended_nonbroadcastable_error [[some 1], [some 1]]
    [[some 1], [some 1], [some 1]] ⟨1, 0, 0⟩ ⟨0, 1, 0⟩ (by decide) (by decide) (by decide)⟩

/- ## Lemmas about the eigendecomposition -/

lemma eigGap_nonneg (m : Cov2) : 0 ≤ eigGap m := Real.sqrt_nonneg _

lemma eigGap_sq (m : Cov2) : eigGap m ^ 2 = ((m.a - m.c) / 2) ^ 2 + m.b ^ 2 :=
  Real.sq_sqrt (by positivity)

lemma eig2_le_eig1 (m : Cov2) : eig2 m ≤ eig1 m := by
  rw [eig1, eig2]
  linarith [eigGap_nonneg m]

/-- Claim C10.  `cov_to_ellipse` is total for every real symmetric 2x2
input and has no error branch: the singular values are non-negative and
non-increasing, the square root is only ever applied to them, and the
returned axes satisfy `width ≥ height ≥ 0` unconditionally. -/
theorem C10_svd_total_nonneg (m : Cov2) (pos : ℝ × ℝ) :
    0 ≤ sval2 m ∧ sval2 m ≤ sval1 m ∧
    (cov_to_ellipse m pos).width = 2 * Real.sqrt (sval1 m) ∧
    (cov_to_ellipse m pos).height = 2 * Real.sqrt (sval2 m) ∧
    0 ≤ (cov_to_ellipse m pos).height ∧
    (cov_to_ellipse m pos).height ≤ (cov_to_ellipse m pos).width := by
  refine ⟨le_min (abs_nonneg _) (abs_nonneg _), min_le_max, rfl, rfl, ?_, ?_⟩
  · exact mul_nonneg (by norm_num) (Real.sqrt_nonneg _)
  · exact mul_le_mul_of_nonneg_left (Real.sqrt_le_sqrt min_le_max) (by norm_num)

/-- Claim C1 (amended).  On an input with a negative eigenvalue the code
does not raise: the SVD yields the eigenvalue magnitudes, so both
radicands stay non-negative, the square root is never applied to a
negative number, and an ellipse built from the magnitudes is silently
returned. -/
theorem C1_amended_indefinite_no_error (m : Cov2) (pos : ℝ × ℝ) (h : eig2 m < 0) :
    sval1 m = max |eig1 m| (-(eig2 m)) ∧
    sval2 m = min |eig1 m| (-(eig2 m)) ∧
    0 ≤ sval2 m ∧ 0 ≤ sval1 m ∧
    (cov_to_ellipse m pos).width = 2 * Real.sqrt (sval1 m) ∧
    (cov_to_ellipse m pos).height = 2 * Real.sqrt (sval2 m) := by
  have habs : |eig2 m| = -(eig2 m) := abs_of_neg h
  exact ⟨by rw [sval1, habs], by rw [sval2, habs],
    le_min (abs_nonneg _) (abs_nonneg _), (abs_nonneg _).trans (le_max_left _ _),
    rfl, rfl⟩

lemma eigGap_example : eigGap ⟨1, 2, 1⟩ = 2 := by
  rw [eigGap]
  rw [show ((((1 : ℝ) - 1) / 2) ^ 2 + 2 ^ 2) = 2 ^ 2 by norm_num]
  exact Real.sqrt_sq (by norm_num)

lemma eig2_example : eig2 ⟨1, 2, 1⟩ = -1 := by
  rw [eig2, eigMean, eigGap_example]
  norm_num

lemma eig1_example : eig1 ⟨1, 2, 1⟩ = 3 := by
  rw [eig1, eigMean, eigGap_example]
  norm_num

/-- Claim C1, counterexample.  On the indefinite matrix `[[1, 2], [2, 1]]`
(eigenvalues 3 and -1) `cov_to_ellipse` raises nothing: it returns the
ellipse with width `2*sqrt 3`, height `2*sqrt 1 = 2` and angle 45
degrees, built from the eigenvalue magnitudes. -/
theorem C1_cov_to_ellipse_indefinite_returns :
    cov_to_ellipse ⟨1, 2, 1⟩ (0, 0) = ⟨(0, 0), 2 * Real.sqrt 3, 2, 45⟩ := by
  have hs1 : sval1 ⟨1, 2, 1⟩ = 3 := by
    rw [sval1, eig1_example, eig2_example,
      abs_of_pos (by norm_num : (0 : ℝ) < 3), show |(-1 : ℝ)| = 1 by
        rw [abs_of_neg (by norm_num : (-1 : ℝ) < 0)]; norm_num]
    norm_num
  have hs2 : sval2 ⟨1, 2, 1⟩ = 1 := by
    rw [sval2, eig1_example, eig2_example,
      abs_of_pos (by norm_num : (0 : ℝ) < 3), show |(-1 : ℝ)| = 1 by
        rw [abs_of_neg (by norm_num : (-1 : ℝ) < 0)]; norm_num]
    norm_num
  have hsv : svec1 ⟨1, 2, 1⟩ = (2, 2) := by
    rw [svec1, if_pos]
    · rw [eigvec1, if_neg (by norm_num : ¬((⟨1, 2, 1⟩ : Cov2).b = 0)), eig1_example]
      norm_num
    · rw [eig1_example, eig2_example]
      rw [abs_of_pos (by norm_num : (0 : ℝ) < 3), abs_of_neg (by norm_num : (-1 : ℝ) < 0)]
      norm_num
  have hang : degrees (atan2 (2 : ℝ) 2) = 45 := by
    rw [atan2, if_pos (by norm_num : (0 : ℝ) < 2),
      show ((2 : ℝ) / 2) = 1 by norm_num, Real.arctan_one, degrees]
    field_simp
    ring
  rw [cov_to_ellipse, hs1, hs2, hsv]
  congr 1
  rw [Real.sqrt_one]
  norm_num

/-- Claim C1 (amended), witness at the indefinite matrix `[[1, 2], [2, 1]]`. -/
theorem C1_amended_witness :
    eig2 ⟨1, 2, 1⟩ < 0 ∧ 0 ≤ sval2 ⟨1, 2, 1⟩ := by
  have h : eig2 ⟨1, 2, 1⟩ < 0 := by rw [eig2_example]; norm_num
  exact ⟨h, (C1_amended_indefinite_no_error ⟨1, 2, 1⟩ (0, 0) h).2.2.1⟩

/-- Claim C6.  On a diagonal covariance `diag(sx^2, sy^2)` with
`sx > sy ≥ 0` the transform returns angle exactly 0 degrees (hence 0 mod
180), width `2*sx` and height `2*sy`. -/
theorem C6_diagonal (sx sy : ℝ) (pos : ℝ × ℝ) (h1 : sy < sx) (h2 : 0 ≤ sy) :
    cov_to_ellipse ⟨sx ^ 2, 0, sy ^ 2⟩ pos = ⟨pos, 2 * sx, 2 * sy, 0⟩ := by
  have hxpos : 0 < sx := lt_of_le_of_lt h2 h1
  have hsq : sy ^ 2 < sx ^ 2 := by nlinarith
  have hgap : eigGap ⟨sx ^ 2, 0, sy ^ 2⟩ = (sx ^ 2 - sy ^ 2) / 2 := by
    have hrad : (((⟨sx ^ 2, 0, sy ^ 2⟩ : Cov2).a - (⟨sx ^ 2, 0, sy ^ 2⟩ : Cov2).c) / 2) ^ 2
        + (⟨sx ^ 2, 0, sy ^ 2⟩ : Cov2).b ^ 2 = ((sx ^ 2 - sy ^ 2) / 2) ^ 2 := by
      show ((sx ^ 2 - sy ^ 2) / 2) ^ 2 + (0 : ℝ) ^ 2 = ((sx ^ 2 - sy ^ 2) / 2) ^ 2
      ring
    rw [eigGap, hrad]
    exact Real.sqrt_sq (by nlinarith)
  have he1 : eig1 ⟨sx ^ 2, 0, sy ^ 2⟩ = sx ^ 2 := by
    rw [eig1, eigMean, hgap]
    show ((sx ^ 2 + sy ^ 2) / 2 + (sx ^ 2 - sy ^ 2) / 2) = sx ^ 2
    ring
  have he2 : eig2 ⟨sx ^ 2, 0, sy ^ 2⟩ = sy ^ 2 := by
    rw [eig2, eigMean, hgap]
    show ((sx ^ 2 + sy ^ 2) / 2 - (sx ^ 2 - sy ^ 2) / 2) = sy ^ 2
    ring
  have habs1 : |eig1 ⟨sx ^ 2, 0, sy ^ 2⟩| = sx ^ 2 := by
    rw [he1]; exact abs_of_nonneg (sq_nonneg sx)
  have habs2 : |eig2 ⟨sx ^ 2, 0, sy ^ 2⟩| = sy ^ 2 := by
    rw [he2]; exact abs_of_nonneg (sq_nonneg sy)
  have hs1 : sval1 ⟨sx ^ 2, 0, sy ^ 2⟩ = sx ^ 2 := by
    rw [sval1, habs1, habs2]
    exact max_eq_left hsq.le
  have hs2 : sval2 ⟨sx ^ 2, 0, sy ^ 2⟩ = sy ^ 2 := by
    rw [sval2, habs1, habs2]
    exact min_eq_right hsq.le
  have hsv : svec1 ⟨sx ^ 2, 0, sy ^ 2⟩ = (1, 0) := by
    rw [svec1, if_pos (by rw [habs1, habs2]; exact hsq.le), eigvec1,
      if_pos (show (⟨sx ^ 2, 0, sy ^ 2⟩ : Cov2).b = 0 from rfl),
      if_pos (show (⟨sx ^ 2, 0, sy ^ 2⟩ : Cov2).c ≤ (⟨sx ^ 2, 0, sy ^ 2⟩ : Cov2).a
        from hsq.le)]
  have hang : degrees (atan2 (0 : ℝ) 1) = 0 := by
    rw [atan2, if_pos (by norm_num : (0 : ℝ) < 1),
      show ((0 : ℝ) / 1) = 0 by norm_num, Real.arctan_zero, degrees, zero_mul, zero_div]
  rw [cov_to_ellipse, hs1, hs2, hsv]
  congr 1
  · rw [Real.sqrt_sq hxpos.le]
  · rw [Real.sqrt_sq h2]

/-- Claim C6, witness: `cov = [[4, 0], [0, 1]]`, center `(2, 3)` gives
`EllipseParams((2, 3), width 4, height 2, angle 0)`. -/
theorem C6_diagonal_witness :
    (1 : ℝ) < 2 ∧ (0 : ℝ) ≤ 1 ∧
    cov_to_ellipse ⟨4, 0, 1⟩ (2, 3) = ⟨(2, 3), 4, 2, 0⟩ := by
  have h := C6_diagonal 2 1 (2, 3) (by norm_num) (by norm_num)
  refine ⟨by norm_num, by norm_num, ?_⟩
  rw [show (⟨4, 0, 1⟩ : Cov2) = ⟨2 ^ 2, 0, 1 ^ 2⟩ by norm_num, h]
  simp only [EllipseParams.mk.injEq]
  norm_num

/- ## Trigonometry of the orientation angle -/

lemma axis_sq {x : ℝ} (hx : 0 ≤ x) : (2 * Real.sqrt x / 2) ^ 2 = x := by
  rw [show 2 * Real.sqrt x / 2 = Real.sqrt x by ring, Real.sq_sqrt hx]

lemma degrees_mul_pi_div (t : ℝ) : degrees t * Real.pi / 180 = t := by
  rw [degrees]
  field_simp

lemma atan2_zero_one : atan2 (0 : ℝ) 1 = 0 := by
  rw [atan2, if_pos one_pos, zero_div, Real.arctan_zero]

lemma atan2_one_zero : atan2 (1 : ℝ) 0 = Real.pi / 2 := by
  rw [atan2, if_neg (lt_irrefl 0), if_neg (lt_irrefl 0), if_pos one_pos]

lemma sqrt_one_add_div_sq {x : ℝ} (y : ℝ) (hx : x ≠ 0) :
    Real.sqrt (1 + (y / x) ^ 2) = Real.sqrt (x ^ 2 + y ^ 2) / |x| := by
  have h1 : 1 + (y / x) ^ 2 = (x ^ 2 + y ^ 2) / x ^ 2 := by
    field_simp
  rw [h1, Real.sqrt_div (by positivity) (x ^ 2), Real.sqrt_sq_eq_abs]

lemma cos_atan2 {x : ℝ} (y : ℝ) (hx : x ≠ 0) :
    Real.cos (atan2 y x) = x / Real.sqrt (x ^ 2 + y ^ 2) := by
  rcases hx.lt_or_lt with hneg | hpos
  · have h0 : ¬ 0 < x := by linarith
    rw [atan2, if_neg h0, if_pos hneg]
    have habs : |x| = -x := abs_of_neg hneg
    rcases le_or_lt 0 y with hy | hy
    · rw [if_pos hy, Real.cos_add_pi, Real.cos_arctan, sqrt_one_add_div_sq y hx, habs,
        one_div_div, neg_div, neg_neg]
    · rw [if_neg (not_le.mpr hy), Real.cos_sub_pi, Real.cos_arctan,
        sqrt_one_add_div_sq y hx, habs, one_div_div, neg_div, neg_neg]
  · rw [atan2, if_pos hpos, Real.cos_arctan, sqrt_one_add_div_sq y hx,
      abs_of_pos hpos, one_div_div]

lemma sin_atan2 {x : ℝ} (y : ℝ) (hx : x ≠ 0) :
    Real.sin (atan2 y x) = y / Real.sqrt (x ^ 2 + y ^ 2) := by
  have hx2 : 0 < x ^ 2 := sq_pos_of_ne_zero hx
  have hs : 0 < Real.sqrt (x ^ 2 + y ^ 2) :=
    Real.sqrt_pos.mpr (by nlinarith [sq_nonneg y])
  rcases hx.lt_or_lt with hneg | hpos
  · have h0 : ¬ 0 < x := by linarith
    rw [atan2, if_neg h0, if_pos hneg]
    have habs : |x| = -x := abs_of_neg hneg
    rcases le_or_lt 0 y with hy | hy
    · rw [if_pos hy, Real.sin_add_pi, Real.sin_arctan, sqrt_one_add_div_sq y hx, habs]
      field_simp
      ring
    · rw [if_neg (not_le.mpr hy), Real.sin_sub_pi, Real.sin_arctan,
        sqrt_one_add_div_sq y hx, habs]
      field_simp
      ring
  · rw [atan2, if_pos hpos, Real.sin_arctan, sqrt_one_add_div_sq y hx, abs_of_pos hpos]
    field_simp

/- ## Positive semi-definite inputs -/

lemma psd_eigMean_nonneg {m : Cov2} (h : PSD m) : 0 ≤ eigMean m := by
  rw [eigMean]
  obtain ⟨h1, h2, _⟩ := h
  linarith

lemma psd_eig2_nonneg {m : Cov2} (h : PSD m) : 0 ≤ eig2 m := by
  have ht : 0 ≤ eigMean m := psd_eigMean_nonneg h
  have hd2 : eigGap m ^ 2 ≤ eigMean m ^ 2 := by
    rw [eigGap_sq, eigMean]
    obtain ⟨h1, h2, h3⟩ := h
    nlinarith
  have hle := Real.sqrt_le_sqrt hd2
  rw [Real.sqrt_sq (eigGap_nonneg m), Real.sqrt_sq ht] at hle
  rw [eig2]
  linarith

lemma psd_eig1_nonneg {m : Cov2} (h : PSD m) : 0 ≤ eig1 m :=
  (psd_eig2_nonneg h).trans (eig2_le_eig1 m)

lemma psd_abs_eig1 {m : Cov2} (h : PSD m) : |eig1 m| = eig1 m :=
  abs_of_nonneg (psd_eig1_nonneg h)

lemma psd_abs_eig2 {m : Cov2} (h : PSD m) : |eig2 m| = eig2 m :=
  abs_of_nonneg (psd_eig2_nonneg h)

lemma psd_sval1 {m : Cov2} (h : PSD m) : sval1 m = eig1 m := by
  rw [sval1, psd_abs_eig1 h, psd_abs_eig2 h]
  exact max_eq_left (eig2_le_eig1 m)

lemma psd_sval2 {m : Cov2} (h : PSD m) : sval2 m = eig2 m := by
  rw [sval2, psd_abs_eig1 h, psd_abs_eig2 h]
  exact min_eq_right (eig2_le_eig1 m)

lemma psd_svec1 {m : Cov2} (h : PSD m) : svec1 m = eigvec1 m := by
  rw [svec1, if_pos]
  rw [psd_abs_eig1 h, psd_abs_eig2 h]
  exact eig2_le_eig1 m

/-- Claim C3.  For every positive semi-definite input the returned axes
satisfy `width ≥ height ≥ 0`, and rotating
`diag((width/2)^2, (height/2)^2)` by the returned angle reproduces the
input covariance exactly (the real-number form of the floating-point
round-trip law). -/
theorem C3_roundtrip (m : Cov2) (pos : ℝ × ℝ) (hm : PSD m) :
    (cov_to_ellipse m pos).height ≤ (cov_to_ellipse m pos).width ∧
    0 ≤ (cov_to_ellipse m pos).height ∧
    reconstructCov (cov_to_ellipse m pos) = m := by
  obtain ⟨a, b, c⟩ := m
  refine ⟨mul_le_mul_of_nonneg_left (Real.sqrt_le_sqrt min_le_max) (by norm_num),
    mul_nonneg (by norm_num) (Real.sqrt_nonneg _), ?_⟩
  have hsv1 := psd_sval1 hm
  have hsv2 := psd_sval2 hm
  have h1nn := psd_eig1_nonneg hm
  have h2nn := psd_eig2_nonneg hm
  have hl1 : (2 * Real.sqrt (sval1 ⟨a, b, c⟩) / 2) ^ 2 = eig1 ⟨a, b, c⟩ := by
    rw [hsv1]
    exact axis_sq h1nn
  have hl2 : (2 * Real.sqrt (sval2 ⟨a, b, c⟩) / 2) ^ 2 = eig2 ⟨a, b, c⟩ := by
    rw [hsv2]
    exact axis_sq h2nn
  rw [reconstructCov, cov_to_ellipse]
  dsimp only
  rw [hl1, hl2, psd_svec1 hm, degrees_mul_pi_div, eigvec1]
  dsimp only
  by_cases hb : b = 0
  · rw [if_pos hb]
    rcases le_or_lt c a with hca | hac
    · rw [if_pos hca]
      dsimp only
      rw [atan2_zero_one, Real.cos_zero, Real.sin_zero]
      have hd : eigGap ⟨a, b, c⟩ = (a - c) / 2 := by
        rw [eigGap, hb]
        rw [show (((⟨a, b, c⟩ : Cov2).a - (⟨a, b, c⟩ : Cov2).c) / 2) ^ 2 + (0 : ℝ) ^ 2
            = ((a - c) / 2) ^ 2 by
          show ((a - c) / 2) ^ 2 + (0 : ℝ) ^ 2 = ((a - c) / 2) ^ 2
          ring]
        exact Real.sqrt_sq (by linarith)
      have he1 : eig1 ⟨a, b, c⟩ = a := by
        rw [eig1, hd]
        show (a + c) / 2 + (a - c) / 2 = a
        ring
      have he2 : eig2 ⟨a, b, c⟩ = c := by
        rw [eig2, hd]
        show (a + c) / 2 - (a - c) / 2 = c
        ring
      rw [he1, he2]
      simp only [Cov2.mk.injEq]
      exact ⟨by ring, by rw [hb]; ring, by ring⟩
    · rw [if_neg (not_le.mpr hac)]
      dsimp only
      rw [atan2_one_zero, Real.cos_pi_div_two, Real.sin_pi_div_two]
      have hd : eigGap ⟨a, b, c⟩ = (c - a) / 2 := by
        rw [eigGap, hb]
        rw [show (((⟨a, b, c⟩ : Cov2).a - (⟨a, b, c⟩ : Cov2).c) / 2) ^ 2 + (0 : ℝ) ^ 2
            = ((c - a) / 2) ^ 2 by
          show ((a - c) / 2) ^ 2 + (0 : ℝ) ^ 2 = ((c - a) / 2) ^ 2
          ring]
        exact Real.sqrt_sq (by linarith)
      have he1 : eig1 ⟨a, b, c⟩ = c := by
        rw [eig1, hd]
        show (a + c) / 2 + (c - a) / 2 = c
        ring
      have he2 : eig2 ⟨a, b, c⟩ = a := by
        rw [eig2, hd]
        show (a + c) / 2 - (c - a) / 2 = a
        ring
      rw [he1, he2]
      simp only [Cov2.mk.injEq]
      exact ⟨by ring, by rw [hb]; ring, by ring⟩
  · rw [if_neg hb]
    dsimp only
    have hu : eig1 ⟨a, b, c⟩ - a = eigGap ⟨a, b, c⟩ - (a - c) / 2 := by
      rw [eig1]
      show (a + c) / 2 + eigGap ⟨a, b, c⟩ - a = eigGap ⟨a, b, c⟩ - (a - c) / 2
      ring
    rw [hu, cos_atan2 _ hb, sin_atan2 _ hb]
    have hd2e : eigGap ⟨a, b, c⟩ ^ 2 = ((a - c) / 2) ^ 2 + b ^ 2 := eigGap_sq _
    have hQ : (0 : ℝ) < b ^ 2 + (eigGap ⟨a, b, c⟩ - (a - c) / 2) ^ 2 := by
      have hb2 : 0 < b ^ 2 := sq_pos_of_ne_zero hb
      nlinarith [sq_nonneg (eigGap ⟨a, b, c⟩ - (a - c) / 2)]
    have hs2 : Real.sqrt (b ^ 2 + (eigGap ⟨a, b, c⟩ - (a - c) / 2) ^ 2) ^ 2
        = b ^ 2 + (eigGap ⟨a, b, c⟩ - (a - c) / 2) ^ 2 := Real.sq_sqrt hQ.le
    have he1 : eig1 ⟨a, b, c⟩ = (a + c) / 2 + eigGap ⟨a, b, c⟩ := rfl
    have he2 : eig2 ⟨a, b, c⟩ = (a + c) / 2 - eigGap ⟨a, b, c⟩ := rfl
    simp only [Cov2.mk.injEq]
    refine ⟨?_, ?_, ?_⟩
    · rw [div_pow, div_pow, hs2, he1, he2]
      field_simp
      linear_combination (-(4 * (2 * eigGap ⟨a, b, c⟩ - (a - c)))) * hd2e
    · rw [div_mul_div_comm, ← pow_two, hs2, he1, he2]
      field_simp
      linear_combination (16 * b) * hd2e
    · rw [div_pow, div_pow, hs2, he1, he2]
      field_simp
      linear_combination (4 * (2 * eigGap ⟨a, b, c⟩ - (a - c))) * hd2e

/-- Claim C3, witness at the PSD matrix `[[2, 1], [1, 2]]`. -/
theorem C3_roundtrip_witness :
    PSD ⟨2, 1, 2⟩ ∧
    0 ≤ (cov_to_ellipse ⟨2, 1, 2⟩ (0, 0)).height ∧
    reconstructCov (cov_to_ellipse ⟨2, 1, 2⟩ (0, 0)) = ⟨2, 1, 2⟩ := by
  have hpsd : PSD ⟨2, 1, 2⟩ := ⟨by norm_num, by norm_num, by norm_num⟩
  obtain ⟨h1, h2, h3⟩ := C3_roundtrip ⟨2, 1, 2⟩ (0, 0) hpsd
  exact ⟨hpsd, h2, h3⟩
